import Mathlib

/-!
Verification development for the picorules EADV mock-data generator.

The TypeScript sources are shallowly embedded here.  JavaScript `number`
arithmetic is idealised as exact rational arithmetic over `ℚ` (the code only
manipulates seeds, millisecond timestamps and PRNG draws); `Math.floor` becomes
the rational floor, and the JavaScript remainder operator `%` on integers
becomes `Int.tmod` (both keep the sign of the dividend).  A mutable PRNG
closure `random : () => number` is embedded as an immutable draw stream
`Nat → ℚ` together with an explicitly threaded draw index, so the n-th call of
the closure reads position n of the stream.  `Date` objects are carried as
their millisecond time values; textual date formatting (`formatDate`) is not
modelled, so EADV rows store the instant itself.  The transcendental pieces of
the standard `Math` library used by the date engine (`Math.pow` with exponent
1/2.5, and the Box-Muller combination of `sqrt`, `log` and `cos`) are external
library functions, not repository code; they are abstracted as the fields of a
`JsMath` record, and theorems that need facts about them assume the
corresponding mathematical contract as an explicit hypothesis.
-/

namespace EadvMocker

/-- Modulus `m = 2 ** 31` of the linear congruential generator in
`createSeededRandom` (src/utils/random.ts). -/
def lcgM : Int := 2147483648

/-- Multiplier `a = 1103515245` of the LCG (same constant as glibc). -/
def lcgA : Int := 1103515245

/-- Increment `c = 12345` of the LCG. -/
def lcgC : Int := 12345

/-- The binary exponent of the unit in the last place of an IEEE double
holding the integer magnitude `m`: the least `k` with `m < 2 ^ (53 + k)`.
Integers below `2 ^ 53` are exactly representable (`k = 0`); each halving
reduces the required exponent by one, and 1024 steps cover every finite
double. -/
def ulpExp (fuel : Nat) (m : Nat) : Nat :=
  match fuel with
  | 0 => 0
  | fuel + 1 => if m < 2 ^ 53 then 0 else ulpExp fuel (m / 2) + 1

/-- Round a nonnegative integer to the nearest multiple of the unit `u`,
ties to even — the IEEE round-to-nearest-even rule restricted to the integer
values that arise in the LCG. -/
def roundPos (m u : Nat) : Nat :=
  let q := m / u
  let r := m % u
  if 2 * r < u then q * u
  else if u < 2 * r then (q + 1) * u
  else if q % 2 = 0 then q * u else (q + 1) * u

/-- Round an integer to the nearest IEEE double (round to nearest, ties to
even).  Every integer the LCG produces is below `2 ^ 62`; the rounded value
is again an integer, so the whole double computation stays in `Int`. -/
def roundToDouble (n : Int) : Int :=
  if 0 ≤ n then ((roundPos n.toNat (2 ^ ulpExp 1024 n.toNat) : Nat) : Int)
  else -((roundPos (-n).toNat (2 ^ ulpExp 1024 (-n).toNat) : Nat) : Int)

/-- The state register of the generator returned by `createSeededRandom seed`:
`lcgState seed 0` is the initial state `seed % m`, and each call of the
closure performs `state = (a * state + c) % m` in JavaScript number
arithmetic.  That arithmetic is IEEE double precision: the product
`a * state` can exceed `2 ^ 53` and is rounded to the nearest double, the
subsequent `+ c` is rounded again, while `%` (the truncated remainder,
`Int.tmod`) is exact because the remainder of a double by `2 ^ 31` is a
multiple of the dividend's ulp and therefore representable.  The initial
`seed % m` is likewise exact for every integer-valued double seed. -/
def lcgState (seed : Int) : Nat → Int
  | 0 => Int.tmod seed lcgM
  | n + 1 =>
    Int.tmod (roundToDouble (roundToDouble (lcgA * lcgState seed n) + lcgC)) lcgM

/-- The value returned by the n-th call (0-based) of the closure produced by
`createSeededRandom seed`: the closure first updates the state and then
returns `state / m`. -/
def lcgStream (seed : Int) (n : Nat) : ℚ :=
  (lcgState seed (n + 1) : ℚ) / (lcgM : ℚ)

/-- `Math.floor` on the exact-rational model of JavaScript numbers. -/
def jsFloor (q : ℚ) : Int := ⌊q⌋

/-- `dates.sort((a, b) => b.getTime() - a.getTime())` from `generateDates`:
sort a list of instants descending (most recent first). -/
def sortDescending (l : List ℚ) : List ℚ :=
  List.insertionSort (fun a b : ℚ => a ≥ b) l

/-- The external `Math` functions used by the date engine, abstracted:
`powInvLambda u` models `Math.pow(u, 1 / lambda)` with the fixed decay
constant `lambda = 2.5` of `generateRecentWeightedDates`, and
`boxMullerKernel u1 u2` models `Math.sqrt(-2 * Math.log(u1)) *
Math.cos(2 * Math.PI * u2)` from `gaussianRandom`. -/
structure JsMath where
  powInvLambda : ℚ → ℚ
  boxMullerKernel : ℚ → ℚ → ℚ

/-- A draw stream has a nonzero draw at or after every position.  This is
exactly the condition under which the `while (u1 === 0) u1 = random();` retry
loop of `gaussianRandom` terminates, whichever position it starts probing. -/
def HasNonzeroAhead (random : Nat → ℚ) : Prop :=
  ∀ k, ∃ j, random (k + j) ≠ 0

/-- The `DateDistribution` union type from src/models/types.ts:
`uniform`, `recent-weighted` or `clustered`. -/
inductive DateDistribution where
  | uniform
  | recentWeighted
  | clustered
  deriving DecidableEq

/-- `gaussianRandom` from src/utils/date-utils.ts: draw `u1`, draw `u2`,
re-draw `u1` while it is exactly 0, then apply the Box-Muller transform.
Returns the value together with the next unused draw index.  `Nat.find`
locates the first nonzero draw from position `i + 2` on, exactly as the
`while` loop does; the hypothesis `h` is its termination condition. -/
def gaussianRandom (M : JsMath) (random : Nat → ℚ) (i : Nat)
    (h : HasNonzeroAhead random) : ℚ × Nat :=
  if random i = 0 then
    let j := Nat.find (h (i + 2))
    (M.boxMullerKernel (random (i + 2 + j)) (random (i + 1)), i + 2 + j + 1)
  else
    (M.boxMullerKernel (random i) (random (i + 1)), i + 2)

/-- `generateUniformDates`: for `count == 1` a single draw maps into the full
interval; otherwise the interval is split into `count` equal segments and
`i`-th date is `segmentStart + random() * segmentSize * 0.8`.  When
`count = 0` the loop body never runs, so the division producing
`segmentSize` is irrelevant (rational division by zero yields zero here,
where JavaScript would yield an unused Infinity or NaN). -/
def generateUniformDates (count : Nat) (startMs endMs : ℚ)
    (random : Nat → ℚ) (i : Nat) : List ℚ × Nat :=
  let rangeMs := endMs - startMs
  if count = 1 then
    ([startMs + random i * rangeMs], i + 1)
  else
    let segmentSize := rangeMs / (count : ℚ)
    (((List.range count).map fun (k : Nat) =>
      startMs + (k : ℚ) * segmentSize + random (i + k) * segmentSize * (4/5)),
      i + count)

/-- `generateRecentWeightedDates`: each of the `count` dates is
`startMs + Math.pow(u, 1 / 2.5) * rangeMs` for a fresh draw `u`. -/
def generateRecentWeightedDates (M : JsMath) (count : Nat) (startMs endMs : ℚ)
    (random : Nat → ℚ) (i : Nat) : List ℚ × Nat :=
  let rangeMs := endMs - startMs
  (((List.range count).map fun k =>
    startMs + M.powInvLambda (random (i + k)) * rangeMs), i + count)

/-- The observation loop of `generateClusteredDates`: for each observation,
pick a cluster with one draw (JavaScript out-of-range indexing would give
`undefined`; the model totalises it with `getD`, unreachable while draws stay
in `[0,1)`), add a Gaussian offset scaled by the cluster spread, and clamp
into `[startMs, endMs]`. -/
def clusteredObsLoop (M : JsMath) (random : Nat → ℚ) (h : HasNonzeroAhead random)
    (centers : List ℚ) (numClusters : Nat) (clusterSpread startMs endMs : ℚ) :
    Nat → Nat → List ℚ × Nat
  | 0, i => ([], i)
  | n + 1, i =>
    let clusterIndex := jsFloor (random i * (numClusters : ℚ))
    let center := centers.getD clusterIndex.toNat 0
    let zi := gaussianRandom M random (i + 1) h
    let ms := max startMs (min endMs (center + zi.1 * clusterSpread))
    let rest := clusteredObsLoop M random h centers numClusters clusterSpread
      startMs endMs n zi.2
    (ms :: rest.1, rest.2)

/-- `generateClusteredDates`: `min(3, max(1, ceil(count / 3)))` clusters are
centred uniformly inside the interval inset by a 10 percent margin, each
consuming one draw; the cluster spread is 5 percent of the range; then the
observation loop runs. -/
def generateClusteredDates (M : JsMath) (count : Nat) (startMs endMs : ℚ)
    (random : Nat → ℚ) (i : Nat) (h : HasNonzeroAhead random) : List ℚ × Nat :=
  let rangeMs := endMs - startMs
  let numClusters := min 3 (max 1 ((count + 2) / 3))
  let margin := rangeMs * (1/10)
  let centers := (List.range numClusters).map fun j =>
    startMs + margin + random (i + j) * (rangeMs - 2 * margin)
  let clusterSpread := rangeMs * (1/20)
  clusteredObsLoop M random h centers numClusters clusterSpread startMs endMs
    count (i + numClusters)

/-- `generateDates` from src/utils/date-utils.ts: dispatch on the distribution
mode, then sort the produced dates descending (most recent first).  The sort
is applied whatever mode produced the dates. -/
def generateDates (M : JsMath) (count : Nat) (startMs endMs : ℚ)
    (random : Nat → ℚ) (i : Nat) (h : HasNonzeroAhead random)
    (distribution : DateDistribution) : List ℚ × Nat :=
  let raw := match distribution with
    | DateDistribution.recentWeighted =>
        generateRecentWeightedDates M count startMs endMs random i
    | DateDistribution.clustered =>
        generateClusteredDates M count startMs endMs random i h
    | DateDistribution.uniform =>
        generateUniformDates count startMs endMs random i
  (sortDescending raw.1, raw.2)

/-- The character table `chars = 'abcdefghijklmnopqrstuvwxyz'` of
`generateRandomSuffix` (src/extractor.ts). -/
def suffixChars : List Char := "abcdefghijklmnopqrstuvwxyz".data

/-- `chars[k]` as used by `generateRandomSuffix`, followed by the string
concatenation `suffix += ...`: an in-range index yields the single character,
while JavaScript out-of-range indexing yields `undefined`, which string
concatenation coerces to the text "undefined".  The out-of-range branch is
unreachable while draws stay in `[0,1)`. -/
def charsIndex (k : Int) : List Char :=
  if 0 ≤ k ∧ k < 26 then [suffixChars.getD k.toNat 'a'] else "undefined".data

/-- `generateRandomSuffix(random, length)`: build a suffix of `length`
characters, one draw per character, each indexing the 26-letter alphabet at
`Math.floor(random() * chars.length)`. -/
def generateRandomSuffix (random : Nat → ℚ) (i : Nat) (len : Nat) : List Char :=
  ((List.range len).map fun k => charsIndex (jsFloor (random (i + k) * 26))).flatten

/-- `String.prototype.replace` with a single-character string pattern:
replace the first occurrence of `target` by `repl`. -/
def replaceFirst (target : Char) (repl : List Char) : List Char → List Char
  | [] => []
  | c :: cs => if c = target then repl ++ cs else c :: replaceFirst target repl cs

/-- One of the two `while (expanded.includes(marker))` loops of
`expandWildcardAttribute`: as long as the marker occurs, replace its first
occurrence by a fresh two-character suffix (two draws).  The loop terminates
because each replacement removes exactly one marker occurrence (generated
suffixes never contain wildcard markers), so running it with fuel equal to the
current number of marker occurrences is exhaustive. -/
def expandMarkerLoop (random : Nat → ℚ) (marker : Char) :
    Nat → List Char → Nat → List Char × Nat
  | 0, cs, i => (cs, i)
  | fuel + 1, cs, i =>
    if marker ∈ cs then
      expandMarkerLoop random marker fuel
        (replaceFirst marker (generateRandomSuffix random i 2) cs) (i + 2)
    else (cs, i)

/-- `isWildcardAttribute` from src/extractor.ts: true iff the name contains
a percent sign or an asterisk. -/
def isWildcardAttribute (attr : String) : Bool :=
  attr.data.contains '%' || attr.data.contains '*'

/-- `expandWildcardAttribute` from src/extractor.ts: names without wildcard
markers are returned unchanged; otherwise all percent markers are replaced
first (left to right), then all asterisk markers. -/
def expandWildcardAttribute (attr : String) (random : Nat → ℚ) (i : Nat) :
    String × Nat :=
  if !isWildcardAttribute attr then (attr, i)
  else
    let cs := attr.data
    let p := expandMarkerLoop random '%' (cs.count '%') cs i
    let q := expandMarkerLoop random '*' (p.1.count '*') p.1 p.2
    (String.mk q.1, q.2)

/-- `expandWildcardAttributes`: map the single-name expansion over the
collection in order, threading the draw index. -/
def expandWildcardAttributes : List String → (Nat → ℚ) → Nat → List String × Nat
  | [], _, i => ([], i)
  | a :: rest, random, i =>
    let e := expandWildcardAttribute a random i
    let r := expandWildcardAttributes rest random e.2
    (e.1 :: r.1, r.2)

/-- The rule discriminants consumed by `extractDependencies`.  The dispatch in
the source is an if/else-if chain, so any discriminant other than fetch or
bind (compute statements in particular) falls through with no effect;
`UNRECOGNIZED` stands for any such further tag. -/
inductive RuleType where
  | FETCH_STATEMENT
  | BIND_STATEMENT
  | COMPUTE_STATEMENT
  | UNRECOGNIZED
  deriving DecidableEq

/-- A parsed rule record, carrying the discriminant and the fields
`extractDependencies` reads from fetch and bind statements. -/
structure ParsedRule where
  ruleType : RuleType
  attributeList : List String := []
  sourceRuleblock : String := ""
  sourceVariable : String := ""
  deriving DecidableEq

/-- A parsed ruleblock: a name and its ordered rule list. -/
structure ParsedRuleblock where
  name : String
  rules : List ParsedRule
  deriving DecidableEq

/-- `Set.prototype.add` on the insertion-ordered list model of a JavaScript
`Set<string>`: duplicates collapse silently. -/
def setAdd (s : List String) (x : String) : List String :=
  if x ∈ s then s else s ++ [x]

/-- Insertion into the insertion-ordered association-list model of
`Map<string, Set<string>>`: add `v` to the set at key `t`, creating the entry
if absent (mirrors the `has`/`set`/`get(...)!.add` sequence in
`extractDependencies`). -/
def mapAddVar : List (String × List String) → String → String →
    List (String × List String)
  | [], t, v => [(t, [v])]
  | (t0, vs) :: rest, t, v =>
    if t0 = t then (t0, setAdd vs v) :: rest
    else (t0, vs) :: mapAddVar rest t v

/-- Lookup in the association-list model of the binding map, returning the
empty set for absent keys. -/
def lookupVars : List (String × List String) → String → List String
  | [], _ => []
  | (t0, vs) :: rest, t => if t0 = t then vs else lookupVars rest t

/-- The body of the inner loop of `extractDependencies`: fetch rules add
every attribute, bind rules add the source variable under
`"rout_" + sourceRuleblock`, anything else changes nothing. -/
def extractRuleStep (acc : List String × List (String × List String))
    (rule : ParsedRule) : List String × List (String × List String) :=
  match rule.ruleType with
  | RuleType.FETCH_STATEMENT => (rule.attributeList.foldl setAdd acc.1, acc.2)
  | RuleType.BIND_STATEMENT =>
    (acc.1, mapAddVar acc.2 ("rout_" ++ rule.sourceRuleblock) rule.sourceVariable)
  | _ => acc

/-- `extractDependencies` from src/extractor.ts: walk ruleblocks in order and
rules within each block in order, accumulating the attribute set and the
binding map. -/
def extractDependencies (ruleblocks : List ParsedRuleblock) :
    List String × List (String × List String) :=
  ruleblocks.foldl (fun acc rb => rb.rules.foldl extractRuleStep acc) ([], [])

/-- A JavaScript value produced by a value generator:
`number | string | null`. -/
inductive JsVal where
  | num (q : ℚ)
  | str (s : String)
  | nullv
  deriving DecidableEq

/-- A `ValueGenerator` closure: it may call the shared `random` closure any
number of times, so it is embedded as a function of the draw stream and the
current draw index, returning the value and the next unused index. -/
abbrev ValueGenerator : Type := (Nat → ℚ) → Nat → JsVal × Nat

/-- An `EadvRow` (src/models/types.ts).  The `dt` field carries the instant
itself; rendering it through `formatDate` is outside the modelled core. -/
structure EadvRow where
  eid : Int
  att : String
  dt : ℚ
  val : JsVal
  deriving DecidableEq

/-- A `RoutRow` is a JavaScript object, modelled as an insertion-ordered
key-value list.  The source builds it as `const row = { eid }` followed by
computed-key assignments `row[varName] = ...`, so a bound variable literally
named "eid" addresses the same property as the entity id and overwrites
it. -/
abbrev RoutRow : Type := List (String × JsVal)

/-- JavaScript property assignment `obj[k] = v`: overwrite the existing key
in place, else append the new key. -/
def objSet : RoutRow → String → JsVal → RoutRow
  | [], k, v => [(k, v)]
  | (k0, v0) :: rest, k, v =>
    if k0 = k then (k0, v) :: rest else (k0, v0) :: objSet rest k v

/-- JavaScript property read `obj[k]`. -/
def objGet : RoutRow → String → Option JsVal
  | [], _ => none
  | (k0, v0) :: rest, k => if k0 = k then some v0 else objGet rest k

/-- The `dateFormat` option (output formatting itself is not modelled). -/
inductive DateFormat where
  | iso
  | oracle
  | mssql
  deriving DecidableEq

/-- `ResolvedMockerOptions`: the options record after `resolveOptions` has
filled every default, with the date range already parsed to instants.  The
lookup maps `valueGenerators` and `bindTableValues` are embedded as total
functions into `Option ValueGenerator` (a missing property reads as `none`). -/
structure ResolvedMockerOptions where
  entityCount : Nat
  entityIdStart : Int
  observationsPerEntity : Nat
  dateRangeStart : ℚ
  dateRangeEnd : ℚ
  dateFormat : DateFormat
  dateDistribution : DateDistribution
  valueGenerators : String → Option ValueGenerator
  defaultValueGenerator : ValueGenerator
  includeMockBindTables : Bool
  bindTableValues : String → String → Option ValueGenerator
  seed : Int

/-- `generateEntityIds` from src/generators/eadv-generator.ts: sequential ids
`startId, startId + 1, ...`. -/
def generateEntityIds (count : Nat) (startId : Int) : List Int :=
  (List.range count).map fun k => startId + (k : Int)

/-- The innermost loop of `generateEadvRows`: one row per date, each row's
value drawn from the resolved value generator. -/
def genRowsForDates (eid : Int) (att : String) (vg : ValueGenerator)
    (random : Nat → ℚ) : List ℚ → Nat → List EadvRow × Nat
  | [], i => ([], i)
  | d :: ds, i =>
    let v := vg random i
    let rest := genRowsForDates eid att vg random ds v.2
    ({ eid := eid, att := att, dt := d, val := v.1 } :: rest.1, rest.2)

/-- The middle loop of `generateEadvRows`: for each concrete attribute,
generate the dates for this entity/attribute pair, resolve the value
generator (attribute-specific override, else the default — the JavaScript
`||` fallback), and emit one row per date. -/
def genRowsForAttrs (M : JsMath) (eid : Int) (obs : Nat) (dStart dEnd : ℚ)
    (dist : DateDistribution) (vgs : String → Option ValueGenerator)
    (dvg : ValueGenerator) (random : Nat → ℚ) (h : HasNonzeroAhead random) :
    List String → Nat → List EadvRow × Nat
  | [], i => ([], i)
  | att :: atts, i =>
    let dates := generateDates M obs dStart dEnd random i h dist
    let vg := (vgs att).getD dvg
    let rows := genRowsForDates eid att vg random dates.1 dates.2
    let rest := genRowsForAttrs M eid obs dStart dEnd dist vgs dvg random h
      atts rows.2
    (rows.1 ++ rest.1, rest.2)

/-- The outer loop of `generateEadvRows`: iterate the entities. -/
def genRowsForEntities (M : JsMath) (obs : Nat) (dStart dEnd : ℚ)
    (dist : DateDistribution) (vgs : String → Option ValueGenerator)
    (dvg : ValueGenerator) (random : Nat → ℚ) (h : HasNonzeroAhead random)
    (atts : List String) : List Int → Nat → List EadvRow × Nat
  | [], i => ([], i)
  | eid :: eids, i =>
    let rows := genRowsForAttrs M eid obs dStart dEnd dist vgs dvg random h
      atts i
    let rest := genRowsForEntities M obs dStart dEnd dist vgs dvg random h
      atts eids rows.2
    (rows.1 ++ rest.1, rest.2)

/-- `generateEadvRows` from src/generators/eadv-generator.ts: expand wildcard
patterns once per call, before the entity loop, then iterate entities and
concrete attributes. -/
def generateEadvRows (M : JsMath) (attrs : List String) (entities : List Int)
    (options : ResolvedMockerOptions) (random : Nat → ℚ) (i : Nat)
    (h : HasNonzeroAhead random) : List EadvRow × Nat :=
  let conc := expandWildcardAttributes attrs random i
  genRowsForEntities M options.observationsPerEntity options.dateRangeStart
    options.dateRangeEnd options.dateDistribution options.valueGenerators
    options.defaultValueGenerator random h conc.1 entities conc.2

/-- The value of one bound variable: a custom generator from
`bindTableValues` if configured, else the default binary draw
`random() > 0.5 ? 1 : 0` (one draw). -/
def routCellValue (btv : String → String → Option ValueGenerator)
    (tableName v : String) (random : Nat → ℚ) (i : Nat) : JsVal × Nat :=
  match btv tableName v with
  | some g => g random i
  | none => ((if random i > 1/2 then JsVal.num 1 else JsVal.num 0), i + 1)

/-- The per-variable loop of `generateRoutTables` over one row: assign
`row[varName] = value` for each variable in order. -/
def genRoutRowLoop (btv : String → String → Option ValueGenerator)
    (tableName : String) (random : Nat → ℚ) :
    List String → RoutRow → Nat → RoutRow × Nat
  | [], row, i => (row, i)
  | v :: vs, row, i =>
    let cell := routCellValue btv tableName v random i
    genRoutRowLoop btv tableName random vs (objSet row v cell.1) cell.2

/-- The per-entity loop of `generateRoutTables`: one row per entity,
starting from the object literal `{ eid }`. -/
def genRoutRows (btv : String → String → Option ValueGenerator)
    (tableName : String) (vars : List String) (random : Nat → ℚ) :
    List Int → Nat → List RoutRow × Nat
  | [], i => ([], i)
  | eid :: eids, i =>
    let r := genRoutRowLoop btv tableName random vars
      [("eid", JsVal.num (eid : ℚ))] i
    let rest := genRoutRows btv tableName vars random eids r.2
    (r.1 :: rest.1, rest.2)

/-- The per-table loop of `generateRoutTables`, over the binding map in
insertion order. -/
def genRoutTablesLoop (btv : String → String → Option ValueGenerator)
    (entities : List Int) (random : Nat → ℚ) :
    List (String × List String) → Nat → List (String × List RoutRow) × Nat
  | [], i => ([], i)
  | (t, vars) :: rest, i =>
    let rows := genRoutRows btv t vars random entities i
    let rr := genRoutTablesLoop btv entities random rest rows.2
    ((t, rows.1) :: rr.1, rr.2)

/-- `generateRoutTables` from src/generators/rout-generator.ts. -/
def generateRoutTables (bindDependencies : List (String × List String))
    (entities : List Int) (options : ResolvedMockerOptions)
    (random : Nat → ℚ) (i : Nat) : List (String × List RoutRow) × Nat :=
  genRoutTablesLoop options.bindTableValues entities random bindDependencies i

/-- The `metadata` object of a `MockDataResult`. -/
structure MockMetadata where
  entities : List Int
  attributes : List String
  bindDependencies : List String
  totalRows : Nat
  deriving DecidableEq

/-- A `MockDataResult`: EADV rows, rout tables (table name to row list, in
insertion order) and metadata. -/
structure MockDataResult where
  eadv : List EadvRow
  routTables : List (String × List RoutRow)
  metadata : MockMetadata

/-- The LCG draw stream always has a nonzero draw at or after every position:
a zero draw means the state became 0, and from state 0 the next state is the
increment 12345, whose draw is nonzero.  Hence the Box-Muller retry loop
terminates on the streams the mocker actually builds. -/
theorem lcg_hasNonzeroAhead (seed : Int) : HasNonzeroAhead (lcgStream seed) := by
  intro k
  by_cases hz : lcgState seed (k + 1) = 0
  · refine ⟨1, ?_⟩
    have h2 : lcgState seed (k + 1 + 1) = 12345 := by
      have hstep : lcgState seed (k + 1 + 1) =
          Int.tmod (roundToDouble (roundToDouble (lcgA * lcgState seed (k + 1))
            + lcgC)) lcgM := rfl
      rw [hstep, hz]
      decide
    simp only [lcgStream, h2]
    norm_num [lcgM]
  · refine ⟨0, ?_⟩
    simp only [lcgStream, Nat.add_zero]
    rw [div_ne_zero_iff]
    constructor
    · exact_mod_cast hz
    · norm_num [lcgM]

/-- `generateMockDataFromParsed` from src/mocker.ts, after `resolveOptions`:
seed the PRNG, extract dependencies, build entity ids, generate the EADV rows,
then (only if `includeMockBindTables`) the rout tables, and assemble the
metadata. -/
def generateMockDataFromParsed (M : JsMath) (parsed : List ParsedRuleblock)
    (options : ResolvedMockerOptions) : MockDataResult :=
  let random := lcgStream options.seed
  let deps := extractDependencies parsed
  let entities := generateEntityIds options.entityCount options.entityIdStart
  let eadv := generateEadvRows M deps.1 entities options random 0
    (lcg_hasNonzeroAhead options.seed)
  let routTables :=
    if options.includeMockBindTables then
      (generateRoutTables deps.2 entities options random eadv.2).1
    else []
  { eadv := eadv.1
    routTables := routTables
    metadata :=
      { entities := entities
        attributes := deps.1
        bindDependencies := deps.2.map Prod.fst
        totalRows := eadv.1.length } }

/-- Modelled from the spec: replace the first occurrence of either wildcard
marker, whichever comes first in the string — the spec claims substitutions
happen "over the markers in the order they occur in the string".  Companion
of `replaceFirst` for the refinement comparison. -/
def replaceFirstMarkerSpec (repl : List Char) : List Char → List Char
  | [] => []
  | c :: cs =>
    if c = '%' ∨ c = '*' then repl ++ cs else c :: replaceFirstMarkerSpec repl cs

/-- Modelled from the spec: the expansion loop as the claim words it,
consuming two draws per substitution but treating the markers in textual
order rather than all percents first. -/
def expandMarkersInOrderSpec (random : Nat → ℚ) :
    Nat → List Char → Nat → List Char × Nat
  | 0, cs, i => (cs, i)
  | fuel + 1, cs, i =>
    if '%' ∈ cs ∨ '*' ∈ cs then
      expandMarkersInOrderSpec random fuel
        (replaceFirstMarkerSpec (generateRandomSuffix random i 2) cs) (i + 2)
    else (cs, i)

/-- Modelled from the spec: `expandOne(name, prng)` as the claim describes it
(markers substituted left-to-right in the order they occur in the string),
for comparison with the source-faithful `expandWildcardAttribute`. -/
def expandWildcardAttributeSpec (attr : String) (random : Nat → ℚ) (i : Nat) :
    String × Nat :=
  if !isWildcardAttribute attr then (attr, i)
  else
    let cs := attr.data
    let q := expandMarkersInOrderSpec random (cs.count '%' + cs.count '*') cs i
    (String.mk q.1, q.2)

/-- A concrete draw stream for witnesses: draw n is n / 26, so the first four
draws index the letters a, b, c, d. -/
def rampStream : Nat → ℚ := fun n => (n : ℚ) / 26

/-- A concrete draw stream for witnesses: every draw is one half. -/
def halfStream : Nat → ℚ := fun _ => 1 / 2

/-- The constant-half stream never draws zero. -/
theorem halfStream_hasNonzeroAhead : HasNonzeroAhead halfStream :=
  fun k => ⟨0, by norm_num [halfStream]⟩

/-- Draws of the constant-half stream lie in the unit interval. -/
theorem halfStream_mem_unit (n : Nat) : 0 ≤ halfStream n ∧ halfStream n < 1 := by
  norm_num [halfStream]

/-- A concrete instantiation of the external math functions, satisfying the
contract that `Math.pow` with a positive fractional exponent maps the unit
interval into itself. -/
def sampleMath : JsMath := { powInvLambda := fun u => u, boxMullerKernel := fun _ _ => 0 }

/-- A concrete fully-specified options record for witnesses. -/
def sampleOptions : ResolvedMockerOptions :=
  { entityCount := 2
    entityIdStart := 1001
    observationsPerEntity := 4
    dateRangeStart := 0
    dateRangeEnd := 86400000
    dateFormat := DateFormat.iso
    dateDistribution := DateDistribution.uniform
    valueGenerators := fun _ => none
    defaultValueGenerator := fun random i => (JsVal.num (random i), i + 1)
    includeMockBindTables := true
    bindTableValues := fun _ _ => none
    seed := 12345 }

/-- Sorting does not change membership. -/
theorem mem_sortDescending {x : ℚ} {l : List ℚ} : x ∈ sortDescending l ↔ x ∈ l :=
  (List.perm_insertionSort _ l).mem_iff

/-- Sorting does not change the length. -/
theorem length_sortDescending (l : List ℚ) :
    (sortDescending l).length = l.length :=
  (List.perm_insertionSort _ l).length_eq

/-- The post-sort of the date engine really sorts descending. -/
theorem sorted_sortDescending (l : List ℚ) :
    List.Sorted (fun a b : ℚ => a ≥ b) (sortDescending l) :=
  List.sorted_insertionSort _ l

/-- Every date produced by the clustered observation loop is the clamp of
some value into the interval. -/
theorem clusteredObsLoop_mem (M : JsMath) (random : Nat → ℚ)
    (h : HasNonzeroAhead random) (centers : List ℚ) (numClusters : Nat)
    (clusterSpread startMs endMs : ℚ) :
    ∀ n i d, d ∈ (clusteredObsLoop M random h centers numClusters clusterSpread
      startMs endMs n i).1 → ∃ x, d = max startMs (min endMs x) := by
  intro n
  induction n with
  | zero => intro i d hd; simp [clusteredObsLoop] at hd
  | succ n ih =>
    intro i d hd
    simp only [clusteredObsLoop, List.mem_cons] at hd
    rcases hd with hd | hd
    · exact ⟨_, hd⟩
    · exact ih _ _ hd

/-- The clustered observation loop emits exactly `n` dates. -/
theorem clusteredObsLoop_length (M : JsMath) (random : Nat → ℚ)
    (h : HasNonzeroAhead random) (centers : List ℚ) (numClusters : Nat)
    (clusterSpread startMs endMs : ℚ) :
    ∀ n i, (clusteredObsLoop M random h centers numClusters clusterSpread
      startMs endMs n i).1.length = n := by
  intro n
  induction n with
  | zero => intro i; simp [clusteredObsLoop]
  | succ n ih => intro i; simp [clusteredObsLoop, ih]

/-- The uniform mode emits exactly `count` dates. -/
theorem length_generateUniformDates (count : Nat) (startMs endMs : ℚ)
    (random : Nat → ℚ) (i : Nat) :
    (generateUniformDates count startMs endMs random i).1.length = count := by
  unfold generateUniformDates
  split
  · simp_all
  · simp

/-- The recent-weighted mode emits exactly `count` dates. -/
theorem length_generateRecentWeightedDates (M : JsMath) (count : Nat)
    (startMs endMs : ℚ) (random : Nat → ℚ) (i : Nat) :
    (generateRecentWeightedDates M count startMs endMs random i).1.length = count := by
  simp [generateRecentWeightedDates]

/-- The date engine emits exactly `count` dates in every mode. -/
theorem length_generateDates (M : JsMath) (count : Nat) (startMs endMs : ℚ)
    (random : Nat → ℚ) (i : Nat) (h : HasNonzeroAhead random)
    (distribution : DateDistribution) :
    (generateDates M count startMs endMs random i h distribution).1.length = count := by
  cases distribution with
  | uniform =>
    exact (length_sortDescending _).trans
      (length_generateUniformDates count startMs endMs random i)
  | recentWeighted =>
    exact (length_sortDescending _).trans
      (length_generateRecentWeightedDates M count startMs endMs random i)
  | clustered =>
    exact (length_sortDescending _).trans
      (clusteredObsLoop_length M random h _ _ _ startMs endMs count _)

/-- Dates of the uniform mode stay in the interval, given draws in the unit
interval. -/
theorem mem_generateUniformDates_interval (count : Nat) (startMs endMs : ℚ)
    (random : Nat → ℚ) (i : Nat) (hse : startMs ≤ endMs)
    (hr : ∀ n, 0 ≤ random n ∧ random n < 1) :
    ∀ d ∈ (generateUniformDates count startMs endMs random i).1,
      startMs ≤ d ∧ d ≤ endMs := by
  intro d hd
  unfold generateUniformDates at hd
  split at hd
  · simp only [List.mem_singleton] at hd
    subst hd
    constructor
    · nlinarith [(hr i).1, (hr i).2]
    · nlinarith [(hr i).1, (hr i).2]
  · simp only [List.mem_map, List.mem_range] at hd
    obtain ⟨k, hk, rfl⟩ := hd
    have hc0 : (0 : ℚ) < (count : ℚ) := by
      have : 0 < count := Nat.lt_of_le_of_lt (Nat.zero_le k) hk
      exact_mod_cast this
    have hkc : (k : ℚ) + 1 ≤ (count : ℚ) := by exact_mod_cast hk
    have hk0 : (0 : ℚ) ≤ (k : ℚ) := Nat.cast_nonneg k
    have hseg : (0 : ℚ) ≤ (endMs - startMs) / (count : ℚ) :=
      div_nonneg (by linarith) hc0.le
    have hcs : (count : ℚ) * ((endMs - startMs) / (count : ℚ)) = endMs - startMs :=
      mul_div_cancel₀ _ (ne_of_gt hc0)
    constructor
    · nlinarith [(hr (i + k)).1, mul_nonneg hk0 hseg,
        mul_nonneg (mul_nonneg (hr (i + k)).1 hseg) (by norm_num : (0:ℚ) ≤ 4/5)]
    · have hjit : random (i + k) * ((endMs - startMs) / (count : ℚ)) * (4/5) ≤
          (endMs - startMs) / (count : ℚ) := by
        nlinarith [(hr (i + k)).1, (hr (i + k)).2, hseg]
      have hstep : ((k : ℚ) + 1) * ((endMs - startMs) / (count : ℚ)) ≤
          (count : ℚ) * ((endMs - startMs) / (count : ℚ)) :=
        mul_le_mul_of_nonneg_right hkc hseg
      nlinarith [hstep, hjit, hcs]

/-- Dates of the recent-weighted mode stay in the interval, given draws in
the unit interval and the contract of `Math.pow` on the unit interval. -/
theorem mem_generateRecentWeightedDates_interval (M : JsMath) (count : Nat)
    (startMs endMs : ℚ) (random : Nat → ℚ) (i : Nat) (hse : startMs ≤ endMs)
    (hr : ∀ n, 0 ≤ random n ∧ random n < 1)
    (hpow : ∀ u, 0 ≤ u → u < 1 → 0 ≤ M.powInvLambda u ∧ M.powInvLambda u ≤ 1) :
    ∀ d ∈ (generateRecentWeightedDates M count startMs endMs random i).1,
      startMs ≤ d ∧ d ≤ endMs := by
  intro d hd
  simp only [generateRecentWeightedDates, List.mem_map, List.mem_range] at hd
  obtain ⟨k, hk, rfl⟩ := hd
  obtain ⟨hw0, hw1⟩ := hpow _ (hr (i + k)).1 (hr (i + k)).2
  constructor
  · nlinarith
  · nlinarith

/-- Dates of the clustered mode stay in the interval: whatever the Gaussian
offset produced, the result is clamped into `[startMs, endMs]`. -/
theorem mem_generateClusteredDates_interval (M : JsMath) (count : Nat)
    (startMs endMs : ℚ) (random : Nat → ℚ) (i : Nat)
    (h : HasNonzeroAhead random) (hse : startMs ≤ endMs) :
    ∀ d ∈ (generateClusteredDates M count startMs endMs random i h).1,
      startMs ≤ d ∧ d ≤ endMs := by
  intro d hd
  obtain ⟨x, rfl⟩ := clusteredObsLoop_mem M random h _ _ _ startMs endMs _ _ d hd
  exact ⟨le_max_left _ _, max_le hse (min_le_left _ _)⟩

/-- C2 (interval containment): for every distribution mode, every count,
every pair of instants with start ≤ end, and every PRNG whose draws lie in
`[0,1)`, every date returned by `generateDates` lies within `[start, end]`
inclusive.  The hypothesis `hpow` is the mathematical contract of the
external `Math.pow` on the unit interval; the hypothesis `h` is the
termination condition of the Box-Muller retry loop, without which the
clustered mode would not return at all. -/
theorem generateDates_mem_interval (M : JsMath) (count : Nat)
    (startMs endMs : ℚ) (random : Nat → ℚ) (i : Nat)
    (h : HasNonzeroAhead random) (distribution : DateDistribution)
    (hse : startMs ≤ endMs)
    (hr : ∀ n, 0 ≤ random n ∧ random n < 1)
    (hpow : ∀ u, 0 ≤ u → u < 1 → 0 ≤ M.powInvLambda u ∧ M.powInvLambda u ≤ 1) :
    ∀ d ∈ (generateDates M count startMs endMs random i h distribution).1,
      startMs ≤ d ∧ d ≤ endMs := by
  intro d hd
  cases distribution with
  | uniform =>
    exact mem_generateUniformDates_interval count startMs endMs random i hse hr d
      (mem_sortDescending.mp hd)
  | recentWeighted =>
    exact mem_generateRecentWeightedDates_interval M count startMs endMs random i
      hse hr hpow d (mem_sortDescending.mp hd)
  | clustered =>
    exact mem_generateClusteredDates_interval M count startMs endMs random i h
      hse d (mem_sortDescending.mp hd)

/-- Witness for C2 at a concrete instance. -/
theorem generateDates_mem_interval_witness :
    List.Forall (fun d => (0 : ℚ) ≤ d ∧ d ≤ 86400000)
      (generateDates sampleMath 5 0 86400000 halfStream 0
        halfStream_hasNonzeroAhead DateDistribution.recentWeighted).1 :=
  List.forall_iff_forall_mem.mpr
    (generateDates_mem_interval sampleMath 5 0 86400000 halfStream 0
      halfStream_hasNonzeroAhead DateDistribution.recentWeighted (by norm_num)
      halfStream_mem_unit
      (fun u h0 h1 => by constructor <;> simp [sampleMath] <;> linarith))

/-- C3 (descending order): for every distribution mode, count, interval and
PRNG stream, the list returned by `generateDates` is sorted non-increasing by
instant; the post-sort is applied whatever mode produced the dates. -/
theorem generateDates_sorted (M : JsMath) (count : Nat) (startMs endMs : ℚ)
    (random : Nat → ℚ) (i : Nat) (h : HasNonzeroAhead random)
    (distribution : DateDistribution) :
    List.Sorted (fun a b : ℚ => a ≥ b)
      (generateDates M count startMs endMs random i h distribution).1 := by
  cases distribution <;> exact sorted_sortDescending _

/-- Witness for C3 at a concrete instance. -/
theorem generateDates_sorted_witness :
    List.Sorted (fun a b : ℚ => a ≥ b)
      (generateDates sampleMath 5 0 86400000 halfStream 0
        halfStream_hasNonzeroAhead DateDistribution.clustered).1 :=
  generateDates_sorted sampleMath 5 0 86400000 halfStream 0
    halfStream_hasNonzeroAhead DateDistribution.clustered

/-- C8 (degenerate inputs): in every mode, a count of zero yields the empty
list (the generator is a total function, so no error is raised), and a
zero-width interval makes every generated date equal to that single
instant. -/
theorem generateDates_degenerate (M : JsMath) (count : Nat)
    (startMs endMs : ℚ) (random : Nat → ℚ) (i : Nat)
    (h : HasNonzeroAhead random) (distribution : DateDistribution) :
    (count = 0 →
      (generateDates M count startMs endMs random i h distribution).1 = []) ∧
    (startMs = endMs →
      ∀ d ∈ (generateDates M count startMs endMs random i h distribution).1,
        d = startMs) := by
  constructor
  · rintro rfl
    cases distribution with
    | uniform =>
      have h0 : (generateUniformDates 0 startMs endMs random i).1 = [] := by
        simp [generateUniformDates]
      show sortDescending (generateUniformDates 0 startMs endMs random i).1 = []
      rw [h0]
      rfl
    | recentWeighted =>
      have h0 : (generateRecentWeightedDates M 0 startMs endMs random i).1 = [] := by
        simp [generateRecentWeightedDates]
      show sortDescending (generateRecentWeightedDates M 0 startMs endMs random i).1 = []
      rw [h0]
      rfl
    | clustered =>
      have h0 : (generateClusteredDates M 0 startMs endMs random i h).1 = [] := by
        simp [generateClusteredDates, clusteredObsLoop]
      show sortDescending (generateClusteredDates M 0 startMs endMs random i h).1 = []
      rw [h0]
      rfl
  · rintro rfl d hd
    cases distribution with
    | uniform =>
      have hd2 : d ∈ (generateUniformDates count startMs startMs random i).1 :=
        mem_sortDescending.mp hd
      revert hd2
      unfold generateUniformDates
      split
      · intro hd2
        simp only [List.mem_singleton] at hd2
        rw [hd2]; ring
      · intro hd2
        simp only [List.mem_map, List.mem_range] at hd2
        obtain ⟨k, hk, rfl⟩ := hd2
        ring
    | recentWeighted =>
      have hd2 := mem_sortDescending.mp hd
      simp only [generateRecentWeightedDates, List.mem_map, List.mem_range] at hd2
      obtain ⟨k, hk, rfl⟩ := hd2
      ring
    | clustered =>
      obtain ⟨x, rfl⟩ := clusteredObsLoop_mem M random h _ _ _ startMs startMs _ _ d
        (mem_sortDescending.mp hd)
      exact max_eq_left (min_le_left _ _)

/-- Witness for C8 at a concrete instance. -/
theorem generateDates_degenerate_witness :
    ((generateDates sampleMath 0 0 86400000 halfStream 0
        halfStream_hasNonzeroAhead DateDistribution.clustered).1 = []) ∧
    (∀ d ∈ (generateDates sampleMath 7 (5 : ℚ) (5 : ℚ) halfStream 0
        halfStream_hasNonzeroAhead DateDistribution.uniform).1, d = 5) :=
  ⟨(generateDates_degenerate sampleMath 0 0 86400000 halfStream 0
      halfStream_hasNonzeroAhead DateDistribution.clustered).1 rfl,
   (generateDates_degenerate sampleMath 7 5 5 halfStream 0
      halfStream_hasNonzeroAhead DateDistribution.uniform).2 rfl⟩

/-- The innermost row loop emits one row per date. -/
theorem length_genRowsForDates (eid : Int) (att : String) (vg : ValueGenerator)
    (random : Nat → ℚ) :
    ∀ ds i, (genRowsForDates eid att vg random ds i).1.length = ds.length := by
  intro ds
  induction ds with
  | nil => intro i; simp [genRowsForDates]
  | cons d ds ih => intro i; simp [genRowsForDates, ih]

/-- The attribute loop emits `observationsPerEntity` rows per attribute. -/
theorem length_genRowsForAttrs (M : JsMath) (eid : Int) (obs : Nat)
    (dStart dEnd : ℚ) (dist : DateDistribution)
    (vgs : String → Option ValueGenerator) (dvg : ValueGenerator)
    (random : Nat → ℚ) (h : HasNonzeroAhead random) :
    ∀ atts i, (genRowsForAttrs M eid obs dStart dEnd dist vgs dvg random h
      atts i).1.length = atts.length * obs := by
  intro atts
  induction atts with
  | nil => intro i; simp [genRowsForAttrs]
  | cons att atts ih =>
    intro i
    simp only [genRowsForAttrs, List.length_append, List.length_cons,
      length_genRowsForDates, length_generateDates, ih]
    ring

/-- The entity loop multiplies the per-entity row count by the entity
count. -/
theorem length_genRowsForEntities (M : JsMath) (obs : Nat) (dStart dEnd : ℚ)
    (dist : DateDistribution) (vgs : String → Option ValueGenerator)
    (dvg : ValueGenerator) (random : Nat → ℚ) (h : HasNonzeroAhead random)
    (atts : List String) :
    ∀ eids i, (genRowsForEntities M obs dStart dEnd dist vgs dvg random h
      atts eids i).1.length = eids.length * (atts.length * obs) := by
  intro eids
  induction eids with
  | nil => intro i; simp [genRowsForEntities]
  | cons eid eids ih =>
    intro i
    simp only [genRowsForEntities, List.length_append, List.length_cons,
      length_genRowsForAttrs, ih]
    ring

/-- Wildcard expansion maps one concrete name per input name. -/
theorem length_expandWildcardAttributes (random : Nat → ℚ) :
    ∀ attrs i, (expandWildcardAttributes attrs random i).1.length = attrs.length := by
  intro attrs
  induction attrs with
  | nil => intro i; simp [expandWildcardAttributes]
  | cons a rest ih => intro i; simp [expandWildcardAttributes, ih]

/-- Appending assignment: when the key is absent, JS property assignment
appends the new key at the end. -/
theorem objSet_of_not_mem (k : String) (v : JsVal) :
    ∀ row : RoutRow, k ∉ row.map Prod.fst → objSet row k v = row ++ [(k, v)] := by
  intro row
  induction row with
  | nil => intro _; rfl
  | cons e rest ih =>
    obtain ⟨k0, v0⟩ := e
    intro hk
    simp only [List.map_cons, List.mem_cons] at hk
    push_neg at hk
    obtain ⟨hne0, hkrest⟩ := hk
    have hne : ¬ k0 = k := fun h => hne0 h.symm
    simp [objSet, hne, ih hkrest]

/-- Assigning one key leaves every other property unchanged. -/
theorem objGet_objSet_ne (k k2 : String) (v : JsVal) (hne : ¬ k = k2) :
    ∀ row : RoutRow, objGet (objSet row k v) k2 = objGet row k2 := by
  intro row
  induction row with
  | nil => simp [objSet, objGet, hne]
  | cons e rest ih =>
    obtain ⟨k0, v0⟩ := e
    by_cases h0 : k0 = k
    · subst h0
      have : ¬ k0 = k2 := hne
      simp [objSet, objGet, this]
    · simp [objSet, objGet, h0, ih]

/-- The per-row variable loop: with pairwise distinct variables that avoid
every key already present, the assignments only append, so the final key
list is the original keys followed by the variables in order, and every
property outside the variable list keeps its value. -/
theorem genRoutRowLoop_spec (btv : String → String → Option ValueGenerator)
    (tableName : String) (random : Nat → ℚ) :
    ∀ (vs : List String) (row : RoutRow) (i), vs.Nodup →
      (∀ v ∈ vs, v ∉ row.map Prod.fst) →
      ((genRoutRowLoop btv tableName random vs row i).1.map Prod.fst =
        row.map Prod.fst ++ vs) ∧
      (∀ k, k ∉ vs →
        objGet (genRoutRowLoop btv tableName random vs row i).1 k =
          objGet row k) := by
  intro vs
  induction vs with
  | nil =>
    intro row i _ _
    exact ⟨by simp [genRoutRowLoop], fun k _ => by simp [genRoutRowLoop]⟩
  | cons v vs ih =>
    intro row i hnd hdisj
    obtain ⟨hndv, hnd2⟩ := List.nodup_cons.mp hnd
    have hvrow : v ∉ row.map Prod.fst := hdisj v (List.mem_cons_self _ _)
    have hstep : genRoutRowLoop btv tableName random (v :: vs) row i =
        genRoutRowLoop btv tableName random vs
          (objSet row v (routCellValue btv tableName v random i).1)
          (routCellValue btv tableName v random i).2 := rfl
    have hrow2eq : objSet row v (routCellValue btv tableName v random i).1 =
        row ++ [(v, (routCellValue btv tableName v random i).1)] :=
      objSet_of_not_mem v _ row hvrow
    have hdisj2 : ∀ w ∈ vs,
        w ∉ (objSet row v (routCellValue btv tableName v random i).1).map
          Prod.fst := by
      intro w hw
      rw [hrow2eq]
      simp only [List.map_append, List.map_cons, List.map_nil,
        List.mem_append, List.mem_cons, List.not_mem_nil]
      push_neg
      refine ⟨hdisj w (List.mem_cons_of_mem _ hw), ?_, fun h => h⟩
      intro h
      exact hndv (h ▸ hw)
    obtain ⟨ihk, ihg⟩ := ih _ (routCellValue btv tableName v random i).2 hnd2 hdisj2
    constructor
    · rw [hstep, ihk, hrow2eq]
      simp
    · intro k hk
      rw [hstep, ihg k (fun h => hk (List.mem_cons_of_mem _ h))]
      have hkv : ¬ v = k := fun h => hk (h ▸ List.mem_cons_self _ _)
      exact objGet_objSet_ne v k _ hkv row

/-- The per-entity loop: one row per entity unconditionally; when no bound
variable is named "eid" (and the variable set is duplicate-free, as a
JavaScript `Set` guarantees), every row keeps the entity id under "eid" and
assigns exactly the variables, in order, after it. -/
theorem genRoutRows_spec (btv : String → String → Option ValueGenerator)
    (tableName : String) (vars : List String) (random : Nat → ℚ) :
    ∀ (eids : List Int) (i),
      ((genRoutRows btv tableName vars random eids i).1.length = eids.length) ∧
      (vars.Nodup → "eid" ∉ vars →
        ((genRoutRows btv tableName vars random eids i).1.map
            (fun row => objGet row "eid") =
          eids.map (fun e => some (JsVal.num (e : ℚ)))) ∧
        (∀ row ∈ (genRoutRows btv tableName vars random eids i).1,
          row.map Prod.fst = "eid" :: vars)) := by
  intro eids
  induction eids with
  | nil => intro i; exact ⟨rfl, fun _ _ => ⟨rfl, by simp [genRoutRows]⟩⟩
  | cons eid eids ih =>
    intro i
    constructor
    · simp [genRoutRows, (ih _).1]
    · intro hnd hne
      have hdisj : ∀ v ∈ vars,
          v ∉ ([("eid", JsVal.num (eid : ℚ))] : RoutRow).map Prod.fst := by
        intro v hv
        simp only [List.map_cons, List.map_nil, List.mem_cons,
          List.not_mem_nil]
        push_neg
        exact ⟨fun h => hne (h ▸ hv), fun h => h⟩
      obtain ⟨hkeys, hget⟩ := genRoutRowLoop_spec btv tableName random vars
        [("eid", JsVal.num (eid : ℚ))] i hnd hdisj
      obtain ⟨ihmap, ihrows⟩ := (ih _).2 hnd hne
      constructor
      · simp only [genRoutRows, List.map_cons]
        rw [hget "eid" hne, ihmap]
        simp [objGet]
      · intro row hrow
        simp only [genRoutRows, List.mem_cons] at hrow
        rcases hrow with rfl | hrow
        · simpa using hkeys
        · exact ihrows row hrow

/-- The table loop of the rout generator handles the binding map entries one
to one, in order. -/
theorem genRoutTablesLoop_spec (btv : String → String → Option ValueGenerator)
    (entities : List Int) (random : Nat → ℚ) :
    ∀ bindDeps i,
      List.Forall₂ (fun tv out =>
        (out : String × List RoutRow).1 = (tv : String × List String).1 ∧
        out.2.length = entities.length ∧
        (tv.2.Nodup → "eid" ∉ tv.2 →
          (out.2.map (fun row => objGet row "eid") =
            entities.map (fun e => some (JsVal.num (e : ℚ)))) ∧
          ∀ row ∈ out.2, row.map Prod.fst = "eid" :: tv.2))
        bindDeps (genRoutTablesLoop btv entities random bindDeps i).1 := by
  intro bindDeps
  induction bindDeps with
  | nil => intro i; simp [genRoutTablesLoop]
  | cons tv rest ih =>
    intro i
    obtain ⟨t, vars⟩ := tv
    refine List.Forall₂.cons ⟨rfl, ?_, ?_⟩ (ih _)
    · exact (genRoutRows_spec btv t vars random entities i).1
    · exact (genRoutRows_spec btv t vars random entities i).2

/-- C6 (amended: a bound variable literally named "eid" overwrites the
entity-id property, so the entity id is only guaranteed when no variable is
named "eid"): `generateEadvRows` returns exactly entities × attributes ×
observationsPerEntity rows (wildcard expansion is a map, so the attribute
count is unchanged), and `generateRoutTables` returns, for each table of the
binding map, exactly one row per entity; when the table's duplicate-free
variable set avoids the name "eid", each row carries the entity id under
"eid" plus one field per bound variable. -/
theorem generateEadvRows_generateRoutTables_counts_amended :
    (∀ (M : JsMath) (attrs : List String) (entities : List Int)
      (options : ResolvedMockerOptions) (random : Nat → ℚ) (i : Nat)
      (h : HasNonzeroAhead random),
      (generateEadvRows M attrs entities options random i h).1.length =
        entities.length * attrs.length * options.observationsPerEntity) ∧
    (∀ (bindDeps : List (String × List String)) (entities : List Int)
      (options : ResolvedMockerOptions) (random : Nat → ℚ) (i : Nat),
      List.Forall₂ (fun tv out =>
        (out : String × List RoutRow).1 = (tv : String × List String).1 ∧
        out.2.length = entities.length ∧
        (tv.2.Nodup → "eid" ∉ tv.2 →
          (out.2.map (fun row => objGet row "eid") =
            entities.map (fun e => some (JsVal.num (e : ℚ)))) ∧
          ∀ row ∈ out.2, row.map Prod.fst = "eid" :: tv.2))
        bindDeps (generateRoutTables bindDeps entities options random i).1) := by
  constructor
  · intro M attrs entities options random i h
    show (genRowsForEntities M options.observationsPerEntity
      options.dateRangeStart options.dateRangeEnd options.dateDistribution
      options.valueGenerators options.defaultValueGenerator random h
      (expandWildcardAttributes attrs random i).1 entities
      (expandWildcardAttributes attrs random i).2).1.length =
      entities.length * attrs.length * options.observationsPerEntity
    rw [length_genRowsForEntities, length_expandWildcardAttributes]
    ring
  · intro bindDeps entities options random i
    exact genRoutTablesLoop_spec options.bindTableValues entities random bindDeps i

/-- Counterexample for C6: a table binding the single variable "eid" makes
the code overwrite the entity-id property — entity 1001 yields the row
whose only field "eid" holds the generated binary value 0, not the entity
id. -/
theorem generateRoutTables_eid_collision_counterexample :
    (generateRoutTables [("rout_x", ["eid"])] [1001] sampleOptions
      halfStream 0).1 = [("rout_x", [[("eid", JsVal.num 0)]])] ∧
    ¬ objGet [("eid", JsVal.num 0)] "eid" = some (JsVal.num 1001) := by
  have hcell : routCellValue sampleOptions.bindTableValues "rout_x" "eid"
      halfStream 0 = (JsVal.num 0, 1) := by
    show ((if halfStream 0 > 1/2 then JsVal.num 1 else JsVal.num 0), 0 + 1) =
      (JsVal.num 0, 1)
    rw [if_neg (by norm_num [halfStream])]
  constructor
  · simp [generateRoutTables, genRoutTablesLoop, genRoutRows, genRoutRowLoop,
      hcell, objSet]
  · intro h
    simp only [objGet, if_pos rfl, Option.some.injEq, JsVal.num.injEq] at h
    norm_num at h

/-- Witness for C6 at the concrete scenario of the claim: 2 entities, 4
observations, 1 concrete attribute give exactly 8 rows; 3 entities and one
table with the 2 variables ckd, stage give 3 rows. -/
theorem generateEadvRows_generateRoutTables_counts_amended_witness :
    ((generateEadvRows sampleMath ["lab_bld_egfr"] [1001, 1002] sampleOptions
      halfStream 0 halfStream_hasNonzeroAhead).1.length = 8) ∧
    List.Forall₂ (fun tv out =>
      (out : String × List RoutRow).1 = (tv : String × List String).1 ∧
      out.2.length = 3 ∧
      (tv.2.Nodup → "eid" ∉ tv.2 →
        (out.2.map (fun row => objGet row "eid") =
          [some (JsVal.num 1001), some (JsVal.num 1002), some (JsVal.num 1003)]) ∧
        ∀ row ∈ out.2, row.map Prod.fst = "eid" :: tv.2))
      [("rout_ckd", ["ckd", "stage"])]
      (generateRoutTables [("rout_ckd", ["ckd", "stage"])] [1001, 1002, 1003]
        sampleOptions halfStream 0).1 := by
  constructor
  · have := generateEadvRows_generateRoutTables_counts_amended.1 sampleMath
      ["lab_bld_egfr"] [1001, 1002] sampleOptions halfStream 0
      halfStream_hasNonzeroAhead
    simpa [sampleOptions] using this
  · have := generateEadvRows_generateRoutTables_counts_amended.2
      [("rout_ckd", ["ckd", "stage"])] [1001, 1002, 1003] sampleOptions
      halfStream 0
    simpa using this

/-- Membership in the set model of `Set.prototype.add`. -/
theorem mem_setAdd {s : List String} {x y : String} :
    y ∈ setAdd s x ↔ y ∈ s ∨ y = x := by
  unfold setAdd
  split
  · constructor
    · exact Or.inl
    · rintro (hy | rfl)
      · exact hy
      · assumption
  · simp

/-- Membership after folding a list of additions into the set model. -/
theorem mem_foldl_setAdd (l : List String) :
    ∀ s y, y ∈ l.foldl setAdd s ↔ y ∈ s ∨ y ∈ l := by
  induction l with
  | nil => intro s y; simp
  | cons a l ih =>
    intro s y
    simp only [List.foldl_cons, ih, mem_setAdd, List.mem_cons]
    tauto

/-- Membership in the binding-map model after one `mapAddVar` insertion. -/
theorem mem_lookupVars_mapAddVar (m : List (String × List String))
    (t v : String) :
    ∀ u w, w ∈ lookupVars (mapAddVar m t v) u ↔
      w ∈ lookupVars m u ∨ (u = t ∧ w = v) := by
  induction m with
  | nil =>
    intro u w
    by_cases h : t = u
    · subst h
      simp [mapAddVar, lookupVars]
    · have h2 : ¬ u = t := fun hu => h hu.symm
      simp [mapAddVar, lookupVars, h, h2]
  | cons e rest ih =>
    intro u w
    obtain ⟨t0, vs⟩ := e
    by_cases h0 : t0 = t
    · subst h0
      by_cases hu : t0 = u
      · subst hu
        simp [mapAddVar, lookupVars, mem_setAdd]
      · have h2 : ¬ u = t0 := fun h => hu h.symm
        simp [mapAddVar, lookupVars, hu, h2]
    · by_cases hu : t0 = u
      · subst hu
        simp [mapAddVar, lookupVars, h0]
      · simp [mapAddVar, lookupVars, h0, hu, ih]

/-- Folding the rule dispatch over a rule list: the attribute-set component
accumulates exactly the fetch attributes, the binding-map component exactly
the bind contributions; compute rules and unrecognized rule types contribute
nothing. -/
theorem foldl_extractRuleStep_spec (rules : List ParsedRule) :
    ∀ acc : List String × List (String × List String),
      (∀ s, s ∈ (rules.foldl extractRuleStep acc).1 ↔ s ∈ acc.1 ∨
        ∃ rule ∈ rules, rule.ruleType = RuleType.FETCH_STATEMENT ∧
          s ∈ rule.attributeList) ∧
      (∀ t v, v ∈ lookupVars (rules.foldl extractRuleStep acc).2 t ↔
        v ∈ lookupVars acc.2 t ∨
        ∃ rule ∈ rules, rule.ruleType = RuleType.BIND_STATEMENT ∧
          t = "rout_" ++ rule.sourceRuleblock ∧ v = rule.sourceVariable) := by
  induction rules with
  | nil => intro acc; simp
  | cons rule rest ih =>
    intro acc
    have hstep := ih (extractRuleStep acc rule)
    constructor
    · intro s
      rw [List.foldl_cons, (hstep.1 s), List.exists_mem_cons_iff]
      rcases hrt : rule.ruleType with _ | _ | _ | _ <;>
        (simp only [extractRuleStep, hrt, mem_foldl_setAdd]; simp [hrt]) <;>
        tauto
    · intro t v
      rw [List.foldl_cons, (hstep.2 t v), List.exists_mem_cons_iff]
      rcases hrt : rule.ruleType with _ | _ | _ | _ <;>
        (simp only [extractRuleStep, hrt, mem_lookupVars_mapAddVar]; simp [hrt]) <;>
        tauto

/-- Folding block extraction over the ruleblock list. -/
theorem foldl_extractBlocks_spec (ruleblocks : List ParsedRuleblock) :
    ∀ acc : List String × List (String × List String),
      (∀ s, s ∈ (ruleblocks.foldl
          (fun acc rb => rb.rules.foldl extractRuleStep acc) acc).1 ↔
        s ∈ acc.1 ∨ ∃ rb ∈ ruleblocks, ∃ rule ∈ rb.rules,
          rule.ruleType = RuleType.FETCH_STATEMENT ∧ s ∈ rule.attributeList) ∧
      (∀ t v, v ∈ lookupVars (ruleblocks.foldl
          (fun acc rb => rb.rules.foldl extractRuleStep acc) acc).2 t ↔
        v ∈ lookupVars acc.2 t ∨ ∃ rb ∈ ruleblocks, ∃ rule ∈ rb.rules,
          rule.ruleType = RuleType.BIND_STATEMENT ∧
          t = "rout_" ++ rule.sourceRuleblock ∧ v = rule.sourceVariable) := by
  induction ruleblocks with
  | nil => intro acc; simp
  | cons rb rest ih =>
    intro acc
    have hrules := foldl_extractRuleStep_spec rb.rules acc
    have hrest := ih (rb.rules.foldl extractRuleStep acc)
    constructor
    · intro s
      rw [List.foldl_cons, (hrest.1 s), (hrules.1 s), List.exists_mem_cons_iff]
      exact or_assoc
    · intro t v
      rw [List.foldl_cons, (hrest.2 t v), (hrules.2 t v), List.exists_mem_cons_iff]
      exact or_assoc

/-- C5 (dependency extraction): the attribute set of `extractDependencies`
is exactly the union of the attribute lists of all fetch rules (wildcards
verbatim, duplicates collapsed by the set), and the binding map holds, at
key `"rout_" ++ R`, exactly the variables bound from ruleblock `R`; compute
rules and unrecognized rule types contribute to neither output. -/
theorem extractDependencies_spec (ruleblocks : List ParsedRuleblock) :
    (∀ s, s ∈ (extractDependencies ruleblocks).1 ↔
      ∃ rb ∈ ruleblocks, ∃ rule ∈ rb.rules,
        rule.ruleType = RuleType.FETCH_STATEMENT ∧ s ∈ rule.attributeList) ∧
    (∀ t v, v ∈ lookupVars (extractDependencies ruleblocks).2 t ↔
      ∃ rb ∈ ruleblocks, ∃ rule ∈ rb.rules,
        rule.ruleType = RuleType.BIND_STATEMENT ∧
        t = "rout_" ++ rule.sourceRuleblock ∧ v = rule.sourceVariable) := by
  have h := foldl_extractBlocks_spec ruleblocks ([], [])
  constructor
  · intro s
    rw [show (extractDependencies ruleblocks).1 =
      (ruleblocks.foldl (fun acc rb => rb.rules.foldl extractRuleStep acc)
        ([], [])).1 from rfl, (h.1 s)]
    simp [lookupVars]
  · intro t v
    rw [show (extractDependencies ruleblocks).2 =
      (ruleblocks.foldl (fun acc rb => rb.rules.foldl extractRuleStep acc)
        ([], [])).2 from rfl, (h.2 t v)]
    simp [lookupVars]

/-- Characters delivered by the alphabet indexing are never wildcard
markers (the alphabet holds lowercase letters, and the out-of-range text
"undefined" holds lowercase letters as well). -/
theorem getD_mem_cons : ∀ (l : List Char) (n : Nat) (d : Char),
    l.getD n d ∈ d :: l := by
  intro l
  induction l with
  | nil => intro n d; cases n <;> simp [List.getD]
  | cons x xs ih =>
    intro n d
    cases n with
    | zero => simp
    | succ n =>
      have h := ih n d
      rw [List.getD_cons_succ]
      rcases List.mem_cons.mp h with h | h
      · rw [h]; exact List.mem_cons_self _ _
      · exact List.mem_cons_of_mem _ (List.mem_cons_of_mem _ h)

theorem charsIndex_no_marker (k : Int) :
    ∀ c ∈ charsIndex k, ¬ c = '%' ∧ ¬ c = '*' := by
  have halpha : ∀ c ∈ 'a' :: suffixChars, ¬ c = '%' ∧ ¬ c = '*' := by decide
  have hundef : ∀ c ∈ "undefined".data, ¬ c = '%' ∧ ¬ c = '*' := by decide
  intro c hc
  unfold charsIndex at hc
  split at hc
  · simp only [List.mem_singleton] at hc
    subst hc
    exact halpha _ (getD_mem_cons suffixChars k.toNat 'a')
  · exact hundef c hc

/-- Generated suffixes never contain wildcard markers. -/
theorem generateRandomSuffix_no_marker (random : Nat → ℚ) (j len : Nat)
    (c : Char) (hc : c = '%' ∨ c = '*') : c ∉ generateRandomSuffix random j len := by
  intro hmem
  unfold generateRandomSuffix at hmem
  rw [List.mem_flatten] at hmem
  obtain ⟨l, hl, hcl⟩ := hmem
  rw [List.mem_map] at hl
  obtain ⟨k, _, rfl⟩ := hl
  have := charsIndex_no_marker _ c hcl
  rcases hc with rfl | rfl
  · exact this.1 rfl
  · exact this.2 rfl

/-- Replacing the first marker occurrence removes exactly one occurrence,
provided the replacement is marker-free. -/
theorem count_replaceFirst_self (target : Char) (repl : List Char)
    (hrepl : target ∉ repl) :
    ∀ cs : List Char, target ∈ cs →
      (replaceFirst target repl cs).count target + 1 = cs.count target := by
  intro cs
  induction cs with
  | nil => intro h; cases h
  | cons c cs ih =>
    intro hmem
    by_cases hct : c = target
    · subst hct
      simp [replaceFirst, List.count_append, List.count_cons,
        List.count_eq_zero.mpr hrepl]
    · have hmem2 : target ∈ cs := by
        rcases List.mem_cons.mp hmem with h | h
        · exact absurd h.symm hct
        · exact h
      simp only [replaceFirst, if_neg hct, List.count_cons]
      rw [← ih hmem2]
      have : ¬ target = c := fun h => hct h.symm
      simp [this]
      ring

/-- Replacing one marker leaves the count of any other absent-from-repl
character unchanged. -/
theorem count_replaceFirst_other (target : Char) (repl : List Char)
    (c : Char) (hc : ¬ c = target) (hrepl : c ∉ repl) :
    ∀ cs : List Char, (replaceFirst target repl cs).count c = cs.count c := by
  intro cs
  induction cs with
  | nil => simp [replaceFirst]
  | cons d cs ih =>
    by_cases hdt : d = target
    · subst hdt
      simp [replaceFirst, List.count_append, List.count_cons,
        List.count_eq_zero.mpr hrepl, hc]
    · simp [replaceFirst, hdt, List.count_cons, ih]

/-- Running one expansion while-loop with fuel at least the current marker
count removes every marker occurrence and consumes exactly two draws per
occurrence. -/
theorem expandMarkerLoop_spec (random : Nat → ℚ) (marker : Char)
    (hm : marker = '%' ∨ marker = '*') :
    ∀ fuel (cs : List Char) i, cs.count marker ≤ fuel →
      (expandMarkerLoop random marker fuel cs i).1.count marker = 0 ∧
      (expandMarkerLoop random marker fuel cs i).2 = i + 2 * cs.count marker := by
  intro fuel
  induction fuel with
  | zero =>
    intro cs i hle
    have h0 : cs.count marker = 0 := Nat.le_zero.mp hle
    exact ⟨h0, by simp [expandMarkerLoop, h0]⟩
  | succ fuel ih =>
    intro cs i hle
    by_cases hmem : marker ∈ cs
    · have hrepl : marker ∉ generateRandomSuffix random i 2 :=
        generateRandomSuffix_no_marker random i 2 marker hm
      have hcount := count_replaceFirst_self marker
        (generateRandomSuffix random i 2) hrepl cs hmem
      have hle2 : (replaceFirst marker (generateRandomSuffix random i 2) cs).count
          marker ≤ fuel := by omega
      obtain ⟨ihc, ihi⟩ := ih _ (i + 2) hle2
      constructor
      · simpa [expandMarkerLoop, hmem] using ihc
      · have : (expandMarkerLoop random marker (fuel + 1) cs i).2 =
            (expandMarkerLoop random marker fuel
              (replaceFirst marker (generateRandomSuffix random i 2) cs) (i + 2)).2 := by
          simp [expandMarkerLoop, hmem]
        rw [this, ihi]
        omega
    · have h0 : cs.count marker = 0 := List.count_eq_zero.mpr hmem
      constructor
      · simpa [expandMarkerLoop, hmem] using h0
      · simp [expandMarkerLoop, hmem, h0]

/-- The percent loop does not change the number of asterisks, and vice
versa. -/
theorem expandMarkerLoop_count_other (random : Nat → ℚ) (marker c : Char)
    (hc : ¬ c = marker) (hcm : c = '%' ∨ c = '*') :
    ∀ fuel (cs : List Char) i,
      (expandMarkerLoop random marker fuel cs i).1.count c = cs.count c := by
  intro fuel
  induction fuel with
  | zero => intro cs i; simp [expandMarkerLoop]
  | succ fuel ih =>
    intro cs i
    by_cases hmem : marker ∈ cs
    · have hrepl : c ∉ generateRandomSuffix random i 2 :=
        generateRandomSuffix_no_marker random i 2 c hcm
      simp [expandMarkerLoop, hmem, ih,
        count_replaceFirst_other marker (generateRandomSuffix random i 2) c hc hrepl]
    · simp [expandMarkerLoop, hmem]

/-- Characters surviving `replaceFirst` come from the replacement or the
original list. -/
theorem mem_replaceFirst (target : Char) (repl : List Char) (c : Char) :
    ∀ cs : List Char, c ∈ replaceFirst target repl cs → c ∈ repl ∨ c ∈ cs := by
  intro cs
  induction cs with
  | nil => intro h; cases h
  | cons d cs ih =>
    intro h
    by_cases hdt : d = target
    · subst hdt
      rcases List.mem_append.mp (by simpa [replaceFirst] using h) with h | h
      · exact Or.inl h
      · exact Or.inr (List.mem_cons_of_mem _ h)
    · rcases List.mem_cons.mp (by simpa [replaceFirst, hdt] using h) with rfl | h
      · exact Or.inr (List.mem_cons_self _ _)
      · rcases ih h with h | h
        · exact Or.inl h
        · exact Or.inr (List.mem_cons_of_mem _ h)

/-- Characters surviving an expansion loop come from the original string or
from some generated suffix. -/
theorem mem_expandMarkerLoop (random : Nat → ℚ) (marker : Char) (c : Char) :
    ∀ fuel (cs : List Char) i,
      c ∈ (expandMarkerLoop random marker fuel cs i).1 →
      c ∈ cs ∨ ∃ j, c ∈ generateRandomSuffix random j 2 := by
  intro fuel
  induction fuel with
  | zero => intro cs i h; exact Or.inl (by simpa [expandMarkerLoop] using h)
  | succ fuel ih =>
    intro cs i h
    by_cases hmem : marker ∈ cs
    · rw [show expandMarkerLoop random marker (fuel + 1) cs i =
          expandMarkerLoop random marker fuel
            (replaceFirst marker (generateRandomSuffix random i 2) cs) (i + 2)
          from by simp [expandMarkerLoop, hmem]] at h
      rcases ih _ _ h with h2 | h2
      · rcases mem_replaceFirst marker _ c cs h2 with h3 | h3
        · exact Or.inr ⟨i, h3⟩
        · exact Or.inl h3
      · exact Or.inr h2
    · exact Or.inl (by simpa [expandMarkerLoop, hmem] using h)

/-- With draws in the unit interval, every generated suffix character comes
from the lowercase alphabet. -/
theorem mem_generateRandomSuffix_lower (random : Nat → ℚ)
    (hr : ∀ n, 0 ≤ random n ∧ random n < 1) (j len : Nat) :
    ∀ c ∈ generateRandomSuffix random j len, c ∈ suffixChars := by
  intro c hc
  unfold generateRandomSuffix at hc
  rw [List.mem_flatten] at hc
  obtain ⟨l, hl, hcl⟩ := hc
  rw [List.mem_map] at hl
  obtain ⟨k, _, rfl⟩ := hl
  have h0 : (0 : Int) ≤ jsFloor (random (j + k) * 26) := by
    have := (hr (j + k)).1
    unfold jsFloor
    positivity
  have h26 : jsFloor (random (j + k) * 26) < 26 := by
    have hlt := (hr (j + k)).2
    have h1 : random (j + k) * 26 < 26 := by nlinarith
    unfold jsFloor
    exact Int.floor_lt.mpr (by exact_mod_cast h1)
  rw [show charsIndex (jsFloor (random (j + k) * 26)) =
      [suffixChars.getD (jsFloor (random (j + k) * 26)).toNat 'a'] from
    by unfold charsIndex; rw [if_pos ⟨h0, h26⟩]] at hcl
  simp only [List.mem_singleton] at hcl
  subst hcl
  have hlen : (jsFloor (random (j + k) * 26)).toNat < suffixChars.length := by
    have : (jsFloor (random (j + k) * 26)).toNat < 26 := by omega
    simpa [suffixChars] using this
  rcases hg : suffixChars.get? (jsFloor (random (j + k) * 26)).toNat with _ | c2
  · exact absurd (List.get?_eq_none.mp hg) (by omega)
  · have : suffixChars.getD (jsFloor (random (j + k) * 26)).toNat 'a' = c2 := by
      rw [List.getD_eq_getElem?_getD, ← List.get?_eq_getElem?, hg]
      rfl
    rw [this]
    exact List.get?_mem hg

/-- A name is non-wildcard exactly when it holds neither marker. -/
theorem isWildcardAttribute_eq_false_iff (attr : String) :
    isWildcardAttribute attr = false ↔ '%' ∉ attr.data ∧ '*' ∉ attr.data := by
  simp [isWildcardAttribute]

/-- C4 (amended: the code replaces all percent markers first, then all
asterisk markers, not the markers in textual order): `expandWildcardAttribute`
returns non-wildcard names unchanged; otherwise the result contains no
wildcard marker, exactly two PRNG draws are consumed per marker occurrence
(one per suffix character), and — when draws lie in `[0,1)` — every character
of the result comes from the original name or from the lowercase alphabet. -/
theorem expandWildcardAttribute_amended (attr : String) (random : Nat → ℚ)
    (i : Nat) :
    (isWildcardAttribute attr = false →
      expandWildcardAttribute attr random i = (attr, i)) ∧
    (expandWildcardAttribute attr random i).1.data.count '%' = 0 ∧
    (expandWildcardAttribute attr random i).1.data.count '*' = 0 ∧
    (expandWildcardAttribute attr random i).2 =
      i + 2 * (attr.data.count '%' + attr.data.count '*') ∧
    ((∀ n, 0 ≤ random n ∧ random n < 1) →
      ∀ c ∈ (expandWildcardAttribute attr random i).1.data,
        c ∈ attr.data ∨ c ∈ suffixChars) := by
  by_cases hw : isWildcardAttribute attr
  · rcases hp : expandMarkerLoop random '%' (attr.data.count '%') attr.data i
      with ⟨cs1, i1⟩
    rcases hq : expandMarkerLoop random '*' (cs1.count '*') cs1 i1 with ⟨cs2, i2⟩
    have hdef : expandWildcardAttribute attr random i = (String.mk cs2, i2) := by
      unfold expandWildcardAttribute
      rw [if_neg (by simp [hw])]
      dsimp only
      rw [hp]
      dsimp only
      rw [hq]
    have h1 := expandMarkerLoop_spec random '%' (Or.inl rfl)
      (attr.data.count '%') attr.data i le_rfl
    rw [hp] at h1
    have hstar := expandMarkerLoop_count_other random '%' '*' (by decide)
      (Or.inr rfl) (attr.data.count '%') attr.data i
    rw [hp] at hstar
    have h2 := expandMarkerLoop_spec random '*' (Or.inr rfl)
      (cs1.count '*') cs1 i1 le_rfl
    rw [hq] at h2
    have hpct := expandMarkerLoop_count_other random '*' '%' (by decide)
      (Or.inl rfl) (cs1.count '*') cs1 i1
    rw [hq] at hpct
    dsimp only at h1 hstar h2 hpct
    have hdata : (expandWildcardAttribute attr random i).1.data = cs2 := by
      rw [hdef]
    have hidx : (expandWildcardAttribute attr random i).2 = i2 := by rw [hdef]
    refine ⟨fun hfalse => absurd hfalse (by simp [hw]), ?_, ?_, ?_, ?_⟩
    · rw [hdata]
      exact hpct.trans h1.1
    · rw [hdata]
      exact h2.1
    · rw [hidx, h2.2, h1.2, hstar]
      ring
    · intro hr c hc
      rw [hdata] at hc
      have hc2 : c ∈ (expandMarkerLoop random '*' (cs1.count '*') cs1 i1).1 := by
        rw [hq]; exact hc
      rcases mem_expandMarkerLoop random '*' c _ cs1 i1 hc2 with h3 | ⟨j, h3⟩
      · have hc3 : c ∈ (expandMarkerLoop random '%' (attr.data.count '%')
            attr.data i).1 := by
          rw [hp]; exact h3
        rcases mem_expandMarkerLoop random '%' c _ attr.data i hc3 with h4 | ⟨j2, h4⟩
        · exact Or.inl h4
        · exact Or.inr (mem_generateRandomSuffix_lower random hr j2 2 c h4)
      · exact Or.inr (mem_generateRandomSuffix_lower random hr j 2 c h3)
  · have hw0 : isWildcardAttribute attr = false := by simpa using hw
    have hnm := (isWildcardAttribute_eq_false_iff attr).mp hw0
    have hdef : expandWildcardAttribute attr random i = (attr, i) := by
      unfold expandWildcardAttribute
      rw [if_pos (by simp [hw0])]
    refine ⟨fun _ => hdef, ?_, ?_, ?_, ?_⟩
    · rw [hdef]
      exact List.count_eq_zero.mpr hnm.1
    · rw [hdef]
      exact List.count_eq_zero.mpr hnm.2
    · rw [hdef, List.count_eq_zero.mpr hnm.1, List.count_eq_zero.mpr hnm.2]
      simp
    · intro _ c hc
      rw [hdef] at hc
      exact Or.inl hc

/-- Witness for C4 at a concrete instance. -/
theorem expandWildcardAttribute_amended_witness :
    expandWildcardAttribute "abc" halfStream 5 = ("abc", 5) ∧
    (expandWildcardAttribute "abc" halfStream 5).1.data.count '%' = 0 ∧
    (expandWildcardAttribute "abc" halfStream 5).2 = 5 ∧
    ∀ c ∈ (expandWildcardAttribute "abc" halfStream 5).1.data,
      c ∈ "abc".data ∨ c ∈ suffixChars := by
  have h := expandWildcardAttribute_amended "abc" halfStream 5
  refine ⟨h.1 (by decide), h.2.1, ?_, h.2.2.2.2 halfStream_mem_unit⟩
  have h2 := h.2.2.2.1
  simpa using h2

/-- Counterexample for C4: on the name `"*%"` with draws 0, 1/26, 2/26, 3/26
the code expands the percent marker first (draws a, b) and the asterisk
afterwards (draws c, d), producing "cdab", while substituting the markers in
the order they occur in the string — as the claim words it — produces
"abcd". -/
theorem expandWildcardAttribute_order_counterexample :
    (expandWildcardAttribute "*%" rampStream 0).1 = "cdab" ∧
    (expandWildcardAttributeSpec "*%" rampStream 0).1 = "abcd" ∧
    ¬ (expandWildcardAttribute "*%" rampStream 0).1 =
      (expandWildcardAttributeSpec "*%" rampStream 0).1 := by
  have hf0 : jsFloor (rampStream 0 * 26) = 0 := by norm_num [rampStream, jsFloor]
  have hf1 : jsFloor (rampStream 1 * 26) = 1 := by norm_num [rampStream, jsFloor]
  have hf2 : jsFloor (rampStream 2 * 26) = 2 := by norm_num [rampStream, jsFloor]
  have hf3 : jsFloor (rampStream 3 * 26) = 3 := by norm_num [rampStream, jsFloor]
  have hc0 : charsIndex (jsFloor (rampStream 0 * 26)) = ['a'] := by rw [hf0]; decide
  have hc1 : charsIndex (jsFloor (rampStream 1 * 26)) = ['b'] := by rw [hf1]; decide
  have hc2 : charsIndex (jsFloor (rampStream 2 * 26)) = ['c'] := by rw [hf2]; decide
  have hc3 : charsIndex (jsFloor (rampStream 3 * 26)) = ['d'] := by rw [hf3]; decide
  have hr2 : List.range 2 = [0, 1] := by decide
  have hs0 : generateRandomSuffix rampStream 0 2 = ['a', 'b'] := by
    simp +decide [generateRandomSuffix, hr2, hc0, hc1]
  have hs2 : generateRandomSuffix rampStream 2 2 = ['c', 'd'] := by
    simp +decide [generateRandomSuffix, hr2, hc2, hc3]
  have e1 : expandWildcardAttribute "*%" rampStream 0 = ("cdab", 4) := by
    simp +decide [expandWildcardAttribute, expandMarkerLoop, replaceFirst,
      hs0, hs2]
  have e2 : expandWildcardAttributeSpec "*%" rampStream 0 = ("abcd", 4) := by
    simp +decide [expandWildcardAttributeSpec, expandMarkersInOrderSpec,
      replaceFirstMarkerSpec, hs0, hs2]
  refine ⟨by rw [e1], by rw [e2], by rw [e1, e2]; decide⟩

/-- Evaluation of the wildcard expansion on the pattern `"lab_%"` with the
two suffix characters given symbolically. -/
theorem expandWildcardAttribute_labPct (random : Nat → ℚ) (i : Nat) (a b : Char)
    (h0 : charsIndex (jsFloor (random i * 26)) = [a])
    (h1 : charsIndex (jsFloor (random (i + 1) * 26)) = [b])
    (ha : ¬ ('*' = a)) (hb : ¬ ('*' = b)) :
    expandWildcardAttribute "lab_%" random i =
      (String.mk ['l', 'a', 'b', '_', a, b], i + 2) := by
  have hr2 : List.range 2 = [0, 1] := by decide
  have hs : generateRandomSuffix random i 2 = [a, b] := by
    simp [generateRandomSuffix, hr2, h0, h1]
  have hrep : replaceFirst '%' [a, b] ['l', 'a', 'b', '_', '%'] =
      ['l', 'a', 'b', '_', a, b] := by
    simp +decide [replaceFirst]
  have hna : ('*' : Char) ∉ (['l', 'a', 'b', '_', a, b] : List Char) := by
    simp +decide [ha, hb]
  have hcstar : (['l', 'a', 'b', '_', a, b] : List Char).count '*' = 0 :=
    List.count_eq_zero.mpr hna
  have hdata : ("lab_%").data = ['l', 'a', 'b', '_', '%'] := by decide
  simp +decide [expandWildcardAttribute, expandMarkerLoop, hdata, hs, hrep, hcstar]

/-- Counterexample for C9: with seed 878, the two successive expansions of
`"lab_%"` on the same PRNG instance both draw the letters e, s and collide on
the concrete name "lab_es" — so the claim's universal quantification over
seeds fails.  The states below follow the IEEE-double arithmetic of the
source (the products are rounded to 53-bit precision). -/
theorem wildcard_expansion_distinct_counterexample :
    (expandWildcardAttribute "lab_%" (lcgStream 878) 0).1 =
      (expandWildcardAttribute "lab_%" (lcgStream 878)
        (expandWildcardAttribute "lab_%" (lcgStream 878) 0).2).1 := by
  have hst1 : lcgState 878 1 = 371272207 := by decide
  have hst2 : lcgState 878 2 = 1569303232 := by decide
  have hst3 : lcgState 878 3 = 371483648 := by decide
  have hst4 : lcgState 878 4 = 1542898752 := by decide
  have hd0 : lcgStream 878 0 = 371272207 / 2147483648 := by
    unfold lcgStream
    norm_num [hst1, lcgM]
  have hd1 : lcgStream 878 1 = 1569303232 / 2147483648 := by
    unfold lcgStream
    norm_num [hst2, lcgM]
  have hd2 : lcgStream 878 2 = 371483648 / 2147483648 := by
    unfold lcgStream
    norm_num [hst3, lcgM]
  have hd3 : lcgStream 878 3 = 1542898752 / 2147483648 := by
    unfold lcgStream
    norm_num [hst4, lcgM]
  have hcx0 : charsIndex (jsFloor (lcgStream 878 0 * 26)) = ['e'] := by
    rw [show jsFloor (lcgStream 878 0 * 26) = 4 from by
      rw [hd0]; norm_num [jsFloor]]
    decide
  have hcx1 : charsIndex (jsFloor (lcgStream 878 (0 + 1) * 26)) = ['s'] := by
    rw [show jsFloor (lcgStream 878 (0 + 1) * 26) = 18 from by
      rw [show (0 + 1 : Nat) = 1 from rfl, hd1]; norm_num [jsFloor]]
    decide
  have hcx2 : charsIndex (jsFloor (lcgStream 878 2 * 26)) = ['e'] := by
    rw [show jsFloor (lcgStream 878 2 * 26) = 4 from by
      rw [hd2]; norm_num [jsFloor]]
    decide
  have hcx3 : charsIndex (jsFloor (lcgStream 878 (2 + 1) * 26)) = ['s'] := by
    rw [show jsFloor (lcgStream 878 (2 + 1) * 26) = 18 from by
      rw [show (2 + 1 : Nat) = 3 from rfl, hd3]; norm_num [jsFloor]]
    decide
  have e1 := expandWildcardAttribute_labPct (lcgStream 878) 0 'e' 's'
    hcx0 hcx1 (by decide) (by decide)
  have e2 := expandWildcardAttribute_labPct (lcgStream 878) 2 'e' 's'
    hcx2 hcx3 (by decide) (by decide)
  rw [e1]
  show (String.mk ['l', 'a', 'b', '_', 'e', 's']) =
    (expandWildcardAttribute "lab_%" (lcgStream 878) 2).1
  rw [e2]

/-- C9 (amended: the two successive expansions yield different names for
typical seeds, e.g. seed 12345, but not for every seed — seed 878 makes them
collide): with seed 12345 the two expansions of `"lab_%"` on the same PRNG
instance give the distinct names "lab_rh" and "lab_qz", and wildcard
detection classifies "lab_bld_egfr" as concrete and "lab_%", "lab_*" as
wildcards. -/
theorem wildcard_expansion_distinctness_amended :
    ¬ (expandWildcardAttribute "lab_%" (lcgStream 12345) 0).1 =
      (expandWildcardAttribute "lab_%" (lcgStream 12345)
        (expandWildcardAttribute "lab_%" (lcgStream 12345) 0).2).1 ∧
    isWildcardAttribute "lab_bld_egfr" = false ∧
    isWildcardAttribute "lab_%" = true ∧
    isWildcardAttribute "lab_*" = true := by
  have hst1 : lcgState 12345 1 = 1406932606 := by decide
  have hst2 : lcgState 12345 2 = 654583808 := by decide
  have hst3 : lcgState 12345 3 = 1358247936 := by decide
  have hst4 : lcgState 12345 4 = 2138638336 := by decide
  have hd0 : lcgStream 12345 0 = 1406932606 / 2147483648 := by
    unfold lcgStream
    norm_num [hst1, lcgM]
  have hd1 : lcgStream 12345 1 = 654583808 / 2147483648 := by
    unfold lcgStream
    norm_num [hst2, lcgM]
  have hd2 : lcgStream 12345 2 = 1358247936 / 2147483648 := by
    unfold lcgStream
    norm_num [hst3, lcgM]
  have hd3 : lcgStream 12345 3 = 2138638336 / 2147483648 := by
    unfold lcgStream
    norm_num [hst4, lcgM]
  have hcx0 : charsIndex (jsFloor (lcgStream 12345 0 * 26)) = ['r'] := by
    rw [show jsFloor (lcgStream 12345 0 * 26) = 17 from by
      rw [hd0]; norm_num [jsFloor]]
    decide
  have hcx1 : charsIndex (jsFloor (lcgStream 12345 (0 + 1) * 26)) = ['h'] := by
    rw [show jsFloor (lcgStream 12345 (0 + 1) * 26) = 7 from by
      rw [show (0 + 1 : Nat) = 1 from rfl, hd1]; norm_num [jsFloor]]
    decide
  have hcx2 : charsIndex (jsFloor (lcgStream 12345 2 * 26)) = ['q'] := by
    rw [show jsFloor (lcgStream 12345 2 * 26) = 16 from by
      rw [hd2]; norm_num [jsFloor]]
    decide
  have hcx3 : charsIndex (jsFloor (lcgStream 12345 (2 + 1) * 26)) = ['z'] := by
    rw [show jsFloor (lcgStream 12345 (2 + 1) * 26) = 25 from by
      rw [show (2 + 1 : Nat) = 3 from rfl, hd3]; norm_num [jsFloor]]
    decide
  have e1 := expandWildcardAttribute_labPct (lcgStream 12345) 0 'r' 'h'
    hcx0 hcx1 (by decide) (by decide)
  have e2 := expandWildcardAttribute_labPct (lcgStream 12345) 2 'q' 'z'
    hcx2 hcx3 (by decide) (by decide)
  refine ⟨?_, by decide, by decide, by decide⟩
  rw [e1]
  show ¬ (String.mk ['l', 'a', 'b', '_', 'r', 'h']) =
    (expandWildcardAttribute "lab_%" (lcgStream 12345) 2).1
  rw [e2]
  decide

/-- C7 evaluated at the failing input: the claim requires every draw to lie
in `[0,1)` for every integer seed, negative seeds included, but
`createSeededRandom (-1)` keeps the negative state `-1` (JavaScript `%` is a
truncated remainder) and its first draw is `-1103502900 / 2^31 < 0`. -/
theorem createSeededRandom_negative_seed_draw :
    lcgState (-1) 0 = -1 ∧
    lcgStream (-1) 0 = -1103502900 / 2147483648 ∧
    lcgStream (-1) 0 < 0 := by
  have h : lcgStream (-1) 0 = -1103502900 / 2147483648 := by
    unfold lcgStream
    norm_num [show lcgState (-1) 1 = -1103502900 from by decide, lcgM]
  refine ⟨by decide, h, ?_⟩
  rw [h]
  norm_num

/-- C1 (determinism): the LCG draw stream is a pure function of the seed, so
equal seeds give identical draw sequences at every index, and
`generateMockDataFromParsed` is a pure function of the parsed ruleblocks, the
fully-specified options and the ambient math functions, so identical inputs
give equal results — eadv rows, rout tables and metadata alike. -/
theorem mocker_determinism :
    (∀ s1 s2 : Int, s1 = s2 → ∀ n, lcgStream s1 n = lcgStream s2 n) ∧
    (∀ (M1 M2 : JsMath) (parsed1 parsed2 : List ParsedRuleblock)
      (o1 o2 : ResolvedMockerOptions), M1 = M2 → parsed1 = parsed2 → o1 = o2 →
      generateMockDataFromParsed M1 parsed1 o1 =
        generateMockDataFromParsed M2 parsed2 o2) := by
  constructor
  · rintro s1 s2 rfl n
    rfl
  · rintro M1 M2 parsed1 parsed2 o1 o2 rfl rfl rfl
    rfl

/-- Witness for C1 at concrete inputs. -/
theorem mocker_determinism_witness :
    lcgStream 42 999 = lcgStream 42 999 ∧
    generateMockDataFromParsed sampleMath [] sampleOptions =
      generateMockDataFromParsed sampleMath [] sampleOptions :=
  ⟨mocker_determinism.1 42 42 rfl 999,
   mocker_determinism.2 sampleMath sampleMath [] [] sampleOptions sampleOptions
     rfl rfl rfl⟩

/-- C10 (frame effect of disabling bind tables): with
`includeMockBindTables := false` the rout tables are empty, while the eadv
rows and the metadata coincide with those of the run with the flag on — the
eadv rows consume their draws before any rout-table generation, and the flag
only selects the rout-table component. -/
theorem includeMockBindTables_frame (M : JsMath)
    (parsed : List ParsedRuleblock) (options : ResolvedMockerOptions) :
    (generateMockDataFromParsed M parsed
      { options with includeMockBindTables := false }).routTables = [] ∧
    (generateMockDataFromParsed M parsed
      { options with includeMockBindTables := false }).eadv =
      (generateMockDataFromParsed M parsed
        { options with includeMockBindTables := true }).eadv ∧
    (generateMockDataFromParsed M parsed
      { options with includeMockBindTables := false }).metadata =
      (generateMockDataFromParsed M parsed
        { options with includeMockBindTables := true }).metadata :=
  ⟨rfl, rfl, rfl⟩

end EadvMocker
